import Mathlib

/-!
Verification development for the AI-WIKI-QUIZ-GENERATOR repository.

The definitions below are a shallow embedding of `backend/llm_quiz_generator.py`
and `backend/scraper.py`.  Python strings are modelled by Lean `String`
(character-based slicing as in Python), Python lists by Lean `List`, and the
`random` module by an explicit tape `tape : Nat → Nat` of draws together with a
cursor `k` that is threaded through the computation: `random.choice xs` reads
one tape cell and picks index `tape k % xs.length`, `random.randint 1 99` reads
one cell giving `1 + tape k % 99`, and `random.shuffle` reads one cell per
element, extracting the element at the drawn index each time (so every
permutation is reachable, as with the library shuffle).  The unbounded Python
`while` loop that assembles the four answer options is embedded with an
explicit `fuel` bound; the value `none` means the loop has not finished within
`fuel` iterations, and a result that holds for every `fuel` means genuine
divergence.
-/

/-- Character set stripped by the Python calls `w.strip(',.()"')`. -/
def stripSet : List Char := [',', '.', '(', ')', Char.ofNat 34]

/-- Python `w.strip(',.()"')`: remove leading and trailing characters of
`stripSet`. -/
def pyStripPunct (s : String) : String :=
  String.mk (((s.toList.dropWhile (fun c => stripSet.contains c)).reverse.dropWhile
    (fun c => stripSet.contains c)).reverse)

/-- Remove leading and trailing whitespace from a character list. -/
def trimChars (l : List Char) : List Char :=
  ((l.dropWhile Char.isWhitespace).reverse.dropWhile Char.isWhitespace).reverse

/-- Python `s.strip()` with no argument. -/
def pyStrip (s : String) : String := String.mk (trimChars s.toList)

/-- Python `s.rstrip()` with no argument. -/
def pyRstrip (s : String) : String :=
  String.mk ((s.toList.reverse.dropWhile Char.isWhitespace).reverse)

/-- Python `s[:n]`: the first `n` characters. -/
def pyTake (n : Nat) (s : String) : String := String.mk (s.toList.take n)

/-- Python `s.split('.')`: split at every period, keeping empty pieces. -/
def splitDot : List Char → List (List Char)
  | [] => [[]]
  | c :: rest =>
    if c = '.' then [] :: splitDot rest
    else
      match splitDot rest with
      | [] => [[c]]
      | p :: ps => (c :: p) :: ps

/-- Worker for Python `s.split()` with no argument: `acc` holds the current
token reversed; whitespace flushes it. -/
def wsAux : List Char → List Char → List (List Char)
  | [], acc => if acc.isEmpty then [] else [acc.reverse]
  | c :: rest, acc =>
    if c.isWhitespace then
      if acc.isEmpty then wsAux rest [] else acc.reverse :: wsAux rest []
    else wsAux rest (c :: acc)

/-- Python `s.split()` with no argument: maximal non-whitespace runs. -/
def pySplitWs (s : String) : List String :=
  (wsAux s.toList []).map String.mk

/-- Python `s.capitalize()`: first character upper-cased, the rest
lower-cased. -/
def pyCapitalize (s : String) : String :=
  match s.toList with
  | [] => ""
  | c :: rest => String.mk (c.toUpper :: rest.map Char.toLower)

/-- Worker for Python `s.istitle()`: `prevCased` tracks whether the previous
character was cased, `cased` whether any cased character was seen. -/
def pyIsTitleAux : List Char → Bool → Bool → Bool
  | [], _, cased => cased
  | c :: rest, prevCased, cased =>
    if c.isUpper then
      if prevCased then false else pyIsTitleAux rest true true
    else if c.isLower then
      if prevCased then pyIsTitleAux rest true true else false
    else
      pyIsTitleAux rest false cased

/-- Python `s.istitle()` (ASCII case classes). -/
def pyIsTitle (s : String) : Bool := pyIsTitleAux s.toList false false

/-- Python `s.isnumeric()`, restricted to ASCII digits (the repository feeds it
ASCII article text). -/
def pyIsNumeric (s : String) : Bool := !s.toList.isEmpty && s.toList.all Char.isDigit

/-- Line 55: `[s.strip() for s in clean_text.split('.') if s.strip()]`, with
the lines 56-57 fallback to `[summary]` and then `[title]`. -/
def sentencesOf (title summary clean_text : String) : List String :=
  let ss := ((splitDot clean_text.toList).map (fun l => String.mk (trimChars l))).filter
    (fun s => s ≠ "")
  if ss.isEmpty then (if summary ≠ "" then [summary] else [title]) else ss

/-- Line 59: `num_q = min(7, max(5, len(sentences) // 3))`. -/
def numQuestions (sentences : List String) : Nat :=
  min 7 (max 5 (sentences.length / 3))

/-- Lines 63-69: the distractor word pool.  Python iterates a `set`, whose
order is unspecified; the set is modelled as first-occurrence order
(`eraseDups`), which realises one admissible iteration order. -/
def wordPool (sentences : List String) : List String :=
  let raw := (sentences.take 20).flatMap
    (fun s => (pySplitWs s).map (fun w => pyCapitalize (pyStripPunct w)))
  let kept := raw.filter (fun w => decide (w.length > 3) && !pyIsNumeric w)
  kept.eraseDups.take 50

/-- Line 72: `idx = i if i < len(sentences) else 0`, then `sentences[idx]`. -/
def srcSentence (sentences : List String) (i : Nat) : String :=
  sentences.getD (if i < sentences.length then i else 0) ""

/-- Lines 73-75: the question text before the appended `"?"`. -/
def qTextOf (title summary : String) (sentences : List String) (i : Nat) : String :=
  let q0 := pyRstrip (pyTake 200 (srcSentence sentences i))
  if q0.length < 10 then pyTake 200 (if summary ≠ "" then summary else title) else q0

/-- Line 94: the explanation string. -/
def explOf (sentences : List String) (i : Nat) : String :=
  "Based on the article text: \x27" ++ pyStrip (pyTake 120 (srcSentence sentences i)) ++ "\x27."

/-- Line 77: `tokens = [t.strip(',.()\x22') for t in sentences[idx].split()]`. -/
def tokensOf (sentences : List String) (i : Nat) : List String :=
  (pySplitWs (srcSentence sentences i)).map pyStripPunct

/-- Line 78: `candidates = [t for t in tokens if t.istitle() and len(t) > 3]`. -/
def candidatesOf (sentences : List String) (i : Nat) : List String :=
  (tokensOf sentences i).filter (fun t => pyIsTitle t && decide (t.length > 3))

/-- Line 93: the weighted difficulty pool `["easy"]*3 + ["medium"]*2 + ["hard"]`. -/
def diffPool : List String := ["easy", "easy", "easy", "medium", "medium", "hard"]

structure QuestionModel where
  question : String
  options : List String
  answer : String
  explanation : String
  difficulty : String
deriving DecidableEq, Repr

structure QuizDict where
  title : String
  summary : String
  quiz : List QuestionModel
  related_topics : List String
deriving DecidableEq, Repr

/-- Line 88: `random.choice(words) if words else f"Option{random.randint(1,99)}"`. -/
def optionPick (words : List String) (tape : Nat → Nat) (k : Nat) : String :=
  match words with
  | [] => "Option" ++ toString (1 + tape k % 99)
  | _ :: _ => words.getD (tape k % words.length) ""

/-- Lines 86-91: the option-building `while` loop.  `fuel` bounds the number of
loop-condition checks; `none` means the loop did not finish within `fuel`
steps. -/
def buildOptions (words : List String) (tape : Nat → Nat) :
    Nat → Nat → List String → Option (List String × Nat)
  | 0, _, _ => none
  | fuel+1, k, opts =>
    if opts.length < 4 then
      if opts.contains (optionPick words tape k) then
        buildOptions words tape fuel (k+1) opts
      else buildOptions words tape fuel (k+1) (opts ++ [optionPick words tape k])
    else some (opts, k)

/-- Line 91 `random.shuffle(options)`: draw an index, extract that element,
recurse on the rest.  The first argument is a step bound instantiated with the
list length. -/
def shuffleSteps (tape : Nat → Nat) : Nat → Nat → List String → List String × Nat
  | 0, k, _ => ([], k)
  | n+1, k, l =>
    match l with
    | [] => ([], k)
    | _ :: _ =>
      let j := tape k % l.length
      let p := shuffleSteps tape n (k+1) (l.eraseIdx j)
      (l.getD j "" :: p.1, p.2)

def pyShuffle (tape : Nat → Nat) (k : Nat) (l : List String) : List String × Nat :=
  shuffleSteps tape l.length k l

/-- Lines 79-83: the correct answer and the advanced tape cursor
(`random.choice(candidates)` reads one tape cell, the fallback branch reads
none). -/
def correctAnswer (title : String) (sentences : List String) (tape : Nat → Nat)
    (k i : Nat) : String × Nat :=
  match candidatesOf sentences i with
  | [] => ((pySplitWs (srcSentence sentences i)).headD title, k)
  | c :: cs => ((c :: cs).getD (tape k % (c :: cs).length) "", k + 1)

/-- Lines 72-103: the body of the per-question loop, producing one
`QuestionModel` and the advanced tape cursor. -/
def mkQuestion (title summary : String) (sentences words : List String)
    (tape : Nat → Nat) (fuel k i : Nat) : Option (QuestionModel × Nat) :=
  match buildOptions words tape fuel (correctAnswer title sentences tape k i).2
      [(correctAnswer title sentences tape k i).1] with
  | none => none
  | some (opts, k2) =>
    some ({ question := qTextOf title summary sentences i ++ "?"
            options := (pyShuffle tape k2 opts).1
            answer := (correctAnswer title sentences tape k i).1
            explanation := explOf sentences i
            difficulty := diffPool.getD (tape (pyShuffle tape k2 opts).2 % 6) "" },
      (pyShuffle tape k2 opts).2 + 1)

/-- Line 71 `for i in range(num_q)`: run `mkQuestion` for `n` consecutive
indices starting at `i`, threading the tape cursor. -/
def genLoop (title summary : String) (sentences words : List String)
    (tape : Nat → Nat) (fuel : Nat) : Nat → Nat → Nat → Option (List QuestionModel × Nat)
  | 0, k, _ => some ([], k)
  | n+1, k, i =>
    match mkQuestion title summary sentences words tape fuel k i with
    | none => none
    | some (q, k1) =>
      match genLoop title summary sentences words tape fuel n k1 (i+1) with
      | none => none
      | some (qs, k2) => some (q :: qs, k2)

/-- Lines 107-109: one step of `for s in sections[:5]: if s and s not in
related: related.append(s)`. -/
def relStep1 (acc : List String) (s : String) : List String :=
  if s ≠ "" ∧ s ∉ acc then acc ++ [s] else acc

/-- Lines 110-112: one step of `for w in words[:6]: if w not in related and
len(related) < 6: related.append(w)`. -/
def relStep2 (acc : List String) (w : String) : List String :=
  if w ∉ acc ∧ acc.length < 6 then acc ++ [w] else acc

/-- Lines 106-112: related topics from section titles then pool words. -/
def relatedTopics (sections words : List String) : List String :=
  (words.take 6).foldl relStep2 ((sections.take 5).foldl relStep1 [])

/-- Lines 49-119: `_fallback_generate_from_text`. -/
def fallback_generate_from_text (title summary clean_text : String)
    (sections : List String) (tape : Nat → Nat) (fuel : Nat) : Option QuizDict :=
  let sentences := sentencesOf title summary clean_text
  let words := wordPool sentences
  match genLoop title summary sentences words tape fuel (numQuestions sentences) 0 0 with
  | none => none
  | some (qs, _) =>
    some { title := title, summary := summary, quiz := qs
           related_topics := relatedTopics sections words }

/-!
Embedding of `backend/scraper.py` lines 6-11 (`is_wikipedia_url`).  The call
`urlparse(url).netloc` is modelled after CPython `urllib.parse.urlsplit`:
strip a leading `scheme:` when the prefix is a valid scheme, then, when the
remainder starts with `//`, the network location runs up to the first of
`/?#`; a net location with unbalanced square brackets raises `ValueError`
(caught by the `except` and turned into `False`), modelled as `none`.
Control-character preprocessing of very recent CPython versions is not
modelled; no claim touches such inputs.
-/

/-- Characters allowed in a URL scheme (`scheme_chars` of `urllib.parse`). -/
def schemeChar (c : Char) : Bool :=
  c.isAlphanum || c == '+' || c == '-' || c == '.'

/-- Remove a leading `scheme:` prefix exactly when CPython `urlsplit` would. -/
def urlAfterScheme (url : String) : String :=
  match url.toList.findIdx? (fun c => c == ':') with
  | none => url
  | some i =>
    if 0 < i ∧ (url.toList.headD ' ').isAlpha ∧ (url.toList.take i).all schemeChar then
      String.mk (url.toList.drop (i+1))
    else url

/-- The `netloc` component of `urlparse`, `none` when `urlsplit` raises. -/
def urlparseNetloc (url : String) : Option String :=
  match (urlAfterScheme url).toList with
  | '/' :: '/' :: t =>
    let nl := t.takeWhile (fun c => !(c == '/' || c == '?' || c == '#'))
    if (nl.contains '[' ∧ ¬ nl.contains ']') ∨ (nl.contains ']' ∧ ¬ nl.contains '[') then
      none
    else some (String.mk nl)
  | _ => some ""

/-- Substring test on character lists (Python `in` on strings). -/
def containsSub (needle : List Char) : List Char → Bool
  | [] => needle.isEmpty
  | c :: t => needle.isPrefixOf (c :: t) || containsSub needle t

/-- Lines 6-11 of `scraper.py`: `"wikipedia.org" in urlparse(url).netloc`,
with any parsing exception mapped to `False`. -/
def is_wikipedia_url (url : String) : Bool :=
  match urlparseNetloc url with
  | none => false
  | some netloc => containsSub "wikipedia.org".toList netloc.toList

/-!
Embedding of the JSON layer (`llm_quiz_generator.py` lines 34-46 and 169-177).
JSON values already produced by `json.loads` are modelled by the inductive
`Json` (numbers as integers; no claim depends on fractional values).  The code
uses the pydantic v1 API (`parse_obj`, `.dict()`), so v1 validation semantics
are modelled field by field: the lenient v1 `str` validator accepts a JSON
string as is and coerces a JSON number or boolean through Python `str(v)`
(`bool` is an `int` subclass, so `true` becomes "True"); `Optional[str]` in
addition accepts `null` or a missing key, since v1 gives `Optional` fields an
implicit `None` default; `List[str]` requires an array whose every element
passes the `str` validator; `List[QuestionModel]` requires an array of objects
each validating as a question; extra keys are ignored; any failure yields
`none` (the `except ValidationError` branch).
-/

theorem getD_mod_mem {l : List String} (hl : l ≠ []) (j : Nat) :
    l.getD (j % l.length) "" ∈ l := by
  have hlen : 0 < l.length := List.length_pos.mpr hl
  have hj : j % l.length < l.length := Nat.mod_lt _ hlen
  rw [List.getD_eq_getElem l "" hj]
  exact List.getElem_mem hj

theorem optionPick_spec (words : List String) (tape : Nat → Nat) (k : Nat) :
    (words = [] ∧ ∃ m, m < 99 ∧ optionPick words tape k = "Option" ++ toString (1 + m)) ∨
    (words ≠ [] ∧ optionPick words tape k ∈ words) := by
  cases words with
  | nil => exact Or.inl ⟨rfl, ⟨tape k % 99, Nat.mod_lt _ (by omega), rfl⟩⟩
  | cons c cs => exact Or.inr ⟨by simp, getD_mod_mem (by simp) _⟩

theorem buildOptions_sound (words : List String) (tape : Nat → Nat) :
    ∀ fuel k opts res k', buildOptions words tape fuel k opts = some (res, k') →
      (opts.Nodup → res.Nodup) ∧ (opts.length ≤ 4 → res.length = 4) ∧
      (∀ x ∈ opts, x ∈ res) ∧
      (∀ x ∈ res, x ∈ opts ∨ (words ≠ [] ∧ x ∈ words) ∨
        (words = [] ∧ ∃ m, m < 99 ∧ x = "Option" ++ toString (1 + m))) := by
  intro fuel
  induction fuel with
  | zero => intro k opts res k' h; simp [buildOptions] at h
  | succ fuel ih =>
    intro k opts res k' h
    rw [buildOptions] at h
    by_cases hlt : opts.length < 4
    · rw [if_pos hlt] at h
      by_cases hctn : opts.contains (optionPick words tape k)
      · rw [if_pos hctn] at h
        exact ih (k+1) opts res k' h
      · rw [if_neg hctn] at h
        obtain ⟨h1, h2, h3, h4⟩ := ih (k+1) (opts ++ [optionPick words tape k]) res k' h
        have hnm : optionPick words tape k ∉ opts := by
          simpa using hctn
        refine ⟨?_, ?_, ?_, ?_⟩
        · intro hnd
          exact h1 (by simp [List.nodup_append, hnd, hnm])
        · intro _
          exact h2 (by simp only [List.length_append, List.length_singleton]; omega)
        · intro x hx
          exact h3 x (by simp [hx])
        · intro x hx
          rcases h4 x hx with hx1 | hx2 | hx3
          · rcases List.mem_append.mp hx1 with hmem | hmem
            · exact Or.inl hmem
            · have hxp : x = optionPick words tape k := by simpa using hmem
              rcases optionPick_spec words tape k with ⟨hw, m, hm, he⟩ | ⟨hw, hmem2⟩
              · exact Or.inr (Or.inr ⟨hw, m, hm, hxp ▸ he⟩)
              · exact Or.inr (Or.inl ⟨hw, hxp ▸ hmem2⟩)
          · exact Or.inr (Or.inl hx2)
          · exact Or.inr (Or.inr hx3)
    · rw [if_neg hlt] at h
      obtain ⟨rfl, rfl⟩ : opts = res ∧ k = k' := by
        have := Option.some.inj h
        exact ⟨congrArg Prod.fst this, congrArg Prod.snd this⟩
      refine ⟨fun hnd => hnd, fun hle => by omega, fun x hx => hx, fun x hx => Or.inl hx⟩

theorem getD_cons_eraseIdx_perm :
    ∀ (l : List String) (j : Nat), j < l.length →
      List.Perm (l.getD j "" :: l.eraseIdx j) l := by
  intro l
  induction l with
  | nil => intro j hj; simp at hj
  | cons x xs ih =>
    intro j hj
    cases j with
    | zero => exact List.Perm.refl _
    | succ j =>
      have hj' : j < xs.length := by simpa using hj
      exact (List.Perm.swap x _ _).trans (List.Perm.cons x (ih j hj'))

theorem shuffleSteps_perm (tape : Nat → Nat) :
    ∀ n k l, l.length ≤ n → List.Perm (shuffleSteps tape n k l).1 l := by
  intro n
  induction n with
  | zero =>
    intro k l hl
    have : l = [] := List.eq_nil_of_length_eq_zero (Nat.le_zero.mp hl)
    subst this
    exact List.Perm.refl _
  | succ n ih =>
    intro k l hl
    cases l with
    | nil => exact List.Perm.refl _
    | cons x xs =>
      have hpos : 0 < (x :: xs).length := by simp
      have hj : tape k % (x :: xs).length < (x :: xs).length := Nat.mod_lt _ hpos
      have hlen : ((x :: xs).eraseIdx (tape k % (x :: xs).length)).length ≤ n := by
        rw [List.length_eraseIdx_of_lt hj]
        simpa using Nat.le_of_succ_le_succ (by simpa using hl)
      exact (List.Perm.cons _ (ih (k+1) _ hlen)).trans (getD_cons_eraseIdx_perm _ _ hj)

theorem pyShuffle_perm (tape : Nat → Nat) (k : Nat) (l : List String) :
    List.Perm (pyShuffle tape k l).1 l :=
  shuffleSteps_perm tape l.length k l (Nat.le_refl _)

theorem correctAnswer_spec (title : String) (sentences : List String)
    (tape : Nat → Nat) (k i : Nat) :
    (candidatesOf sentences i = [] →
      (correctAnswer title sentences tape k i).1 =
        (pySplitWs (srcSentence sentences i)).headD title) ∧
    (candidatesOf sentences i ≠ [] →
      (correctAnswer title sentences tape k i).1 ∈ candidatesOf sentences i) := by
  constructor
  · intro hc
    simp [correctAnswer, hc]
  · intro hne
    cases hc : candidatesOf sentences i with
    | nil => exact absurd hc hne
    | cons c cs =>
      have hfst : (correctAnswer title sentences tape k i).1 =
          (c :: cs).getD (tape k % (c :: cs).length) "" := by
        simp [correctAnswer, hc]
      rw [hfst]
      exact getD_mod_mem (by simp) _

theorem mkQuestion_spec (title summary : String) (sentences words : List String)
    (tape : Nat → Nat) (fuel k i : Nat) (q : QuestionModel) (k' : Nat)
    (h : mkQuestion title summary sentences words tape fuel k i = some (q, k')) :
    q.options.length = 4 ∧ q.options.Nodup ∧ q.answer ∈ q.options ∧
    q.question = qTextOf title summary sentences i ++ "?" ∧
    q.explanation = explOf sentences i ∧
    q.answer = (correctAnswer title sentences tape k i).1 ∧
    (∀ x ∈ q.options, x = (correctAnswer title sentences tape k i).1 ∨
      (words ≠ [] ∧ x ∈ words) ∨
      (words = [] ∧ ∃ m, m < 99 ∧ x = "Option" ++ toString (1 + m))) := by
  unfold mkQuestion at h
  split at h
  · exact absurd h (by simp)
  · next opts k2 hb =>
    have h2 := Option.some.inj h
    have hq : q = { question := qTextOf title summary sentences i ++ "?"
                    options := (pyShuffle tape k2 opts).1
                    answer := (correctAnswer title sentences tape k i).1
                    explanation := explOf sentences i
                    difficulty := diffPool.getD (tape (pyShuffle tape k2 opts).2 % 6) "" } :=
      (congrArg Prod.fst h2).symm
    subst hq
    obtain ⟨hnd, hlen, hsub, hprov⟩ :=
      buildOptions_sound words tape fuel (correctAnswer title sentences tape k i).2
        [(correctAnswer title sentences tape k i).1] opts k2 hb
    have hperm := pyShuffle_perm tape k2 opts
    have hlen4 : opts.length = 4 := hlen (by simp)
    have hmemc : (correctAnswer title sentences tape k i).1 ∈ opts :=
      hsub _ (by simp)
    refine ⟨?_, ?_, ?_, rfl, rfl, rfl, ?_⟩
    · rw [hperm.length_eq, hlen4]
    · exact (hperm.nodup_iff).mpr (hnd (List.nodup_singleton _))
    · exact (hperm.mem_iff).mpr hmemc
    · intro x hx
      rcases hprov x ((hperm.mem_iff).mp hx) with hx1 | hx2 | hx3
      · exact Or.inl (by simpa using hx1)
      · exact Or.inr (Or.inl hx2)
      · exact Or.inr (Or.inr hx3)

theorem genLoop_spec (title summary : String) (sentences words : List String)
    (tape : Nat → Nat) (fuel : Nat) :
    ∀ n k i qs k2, genLoop title summary sentences words tape fuel n k i = some (qs, k2) →
      qs.length = n ∧
      ∀ j (hj : j < qs.length), ∃ kj kj',
        mkQuestion title summary sentences words tape fuel kj (i + j) =
          some (qs.get ⟨j, hj⟩, kj') := by
  intro n
  induction n with
  | zero =>
    intro k i qs k2 h
    rw [genLoop] at h
    have h2 := Option.some.inj h
    have hqs : qs = [] := (congrArg Prod.fst h2).symm
    subst hqs
    exact ⟨rfl, fun j hj => absurd hj (by simp)⟩
  | succ n ih =>
    intro k i qs k2 h
    rw [genLoop] at h
    split at h
    · exact absurd h (by simp)
    · next q k1 hm =>
      split at h
      · exact absurd h (by simp)
      · next qs' k2' hg =>
        have h2 := Option.some.inj h
        have hqs : qs = q :: qs' := (congrArg Prod.fst h2).symm
        subst hqs
        obtain ⟨hlen, hget⟩ := ih k1 (i+1) qs' k2' hg
        refine ⟨by simp [hlen], ?_⟩
        intro j hj
        cases j with
        | zero => exact ⟨k, k1, by simpa using hm⟩
        | succ j =>
          have hj' : j < qs'.length := by simpa using hj
          obtain ⟨kj, kj', hmk⟩ := hget j hj'
          refine ⟨kj, kj', ?_⟩
          have hidx : i + (j+1) = (i+1) + j := by omega
          rw [hidx]
          simpa using hmk

theorem fallback_destruct (title summary clean_text : String) (sections : List String)
    (tape : Nat → Nat) (fuel : Nat) (qd : QuizDict)
    (h : fallback_generate_from_text title summary clean_text sections tape fuel = some qd) :
    ∃ k2, genLoop title summary (sentencesOf title summary clean_text)
        (wordPool (sentencesOf title summary clean_text)) tape fuel
        (numQuestions (sentencesOf title summary clean_text)) 0 0 = some (qd.quiz, k2) ∧
      qd.title = title ∧ qd.summary = summary ∧
      qd.related_topics =
        relatedTopics sections (wordPool (sentencesOf title summary clean_text)) := by
  simp only [fallback_generate_from_text] at h
  split at h
  · exact absurd h (by simp)
  · next qs k2 hg =>
    cases Option.some.inj h
    exact ⟨k2, hg, rfl, rfl, rfl⟩

/-!  Helper lemmas about the related-topics accumulation. -/

theorem relStep1_shape (acc : List String) (s : String) :
    relStep1 acc s = acc ∨ (s ∉ acc ∧ relStep1 acc s = acc ++ [s]) := by
  unfold relStep1
  split
  · next hcond => exact Or.inr ⟨hcond.2, rfl⟩
  · exact Or.inl rfl

theorem relStep2_shape (acc : List String) (w : String) :
    relStep2 acc w = acc ∨ (w ∉ acc ∧ acc.length < 6 ∧ relStep2 acc w = acc ++ [w]) := by
  unfold relStep2
  split
  · next hcond => exact Or.inr ⟨hcond.1, hcond.2, rfl⟩
  · exact Or.inl rfl

theorem foldl_relStep1_nodup :
    ∀ (l acc : List String), acc.Nodup → (l.foldl relStep1 acc).Nodup := by
  intro l
  induction l with
  | nil => exact fun acc h => h
  | cons x xs ih =>
    intro acc h
    refine ih _ ?_
    rcases relStep1_shape acc x with hs | ⟨hnm, hs⟩
    · rw [hs]; exact h
    · rw [hs]; simp [List.nodup_append, h, hnm]

theorem foldl_relStep1_length :
    ∀ (l acc : List String), (l.foldl relStep1 acc).length ≤ acc.length + l.length := by
  intro l
  induction l with
  | nil => intro acc; simp
  | cons x xs ih =>
    intro acc
    have h1 : (relStep1 acc x).length ≤ acc.length + 1 := by
      rcases relStep1_shape acc x with hs | ⟨-, hs⟩ <;> rw [hs] <;> simp
    have h2 := ih (relStep1 acc x)
    simp only [List.foldl_cons, List.length_cons]
    omega

theorem foldl_relStep2_nodup :
    ∀ (l acc : List String), acc.Nodup → (l.foldl relStep2 acc).Nodup := by
  intro l
  induction l with
  | nil => exact fun acc h => h
  | cons x xs ih =>
    intro acc h
    refine ih _ ?_
    rcases relStep2_shape acc x with hs | ⟨hnm, -, hs⟩
    · rw [hs]; exact h
    · rw [hs]; simp [List.nodup_append, h, hnm]

theorem foldl_relStep2_length :
    ∀ (l acc : List String), acc.length ≤ 6 → (l.foldl relStep2 acc).length ≤ 6 := by
  intro l
  induction l with
  | nil => exact fun acc h => h
  | cons x xs ih =>
    intro acc h
    refine ih _ ?_
    rcases relStep2_shape acc x with hs | ⟨-, hlt, hs⟩
    · rw [hs]; exact h
    · rw [hs]; simp only [List.length_append, List.length_singleton]; omega

theorem foldl_relStep2_extends :
    ∀ (l acc : List String), ∃ t, l.foldl relStep2 acc = acc ++ t := by
  intro l
  induction l with
  | nil => exact fun acc => ⟨[], by simp⟩
  | cons x xs ih =>
    intro acc
    rcases relStep2_shape acc x with hs | ⟨-, -, hs⟩
    · obtain ⟨t, ht⟩ := ih (relStep2 acc x)
      exact ⟨t, by rw [List.foldl_cons, ht, hs]⟩
    · obtain ⟨t, ht⟩ := ih (relStep2 acc x)
      exact ⟨[x] ++ t, by rw [List.foldl_cons, ht, hs, List.append_assoc]⟩

theorem relatedTopics_length (sections words : List String) :
    (relatedTopics sections words).length ≤ 6 := by
  unfold relatedTopics
  refine foldl_relStep2_length _ _ ?_
  have h1 := foldl_relStep1_length (sections.take 5) []
  have h2 : (sections.take 5).length ≤ 5 := List.length_take_le _ _
  simp only [List.length_nil] at h1
  omega

theorem relatedTopics_nodup (sections words : List String) :
    (relatedTopics sections words).Nodup := by
  unfold relatedTopics
  exact foldl_relStep2_nodup _ _ (foldl_relStep1_nodup _ _ List.nodup_nil)

/-!  Helper lemmas for the diverging run of the option loop. -/

theorem buildOptions_stuck (tape : Nat → Nat) :
    ∀ fuel k, buildOptions ["Asdf"] tape fuel k ["Asdf"] = none := by
  intro fuel
  induction fuel with
  | zero => intro k; rfl
  | succ fuel ih =>
    intro k
    have hp : optionPick ["Asdf"] tape k = "Asdf" := by
      show (["Asdf"] : List String).getD (tape k % 1) "" = "Asdf"
      rw [Nat.mod_one]
      rfl
    rw [buildOptions, hp]
    simpa using ih (k+1)

theorem genLoop_none_step (title summary : String) (sentences words : List String)
    (tape : Nat → Nat) (fuel n k i : Nat)
    (h : mkQuestion title summary sentences words tape fuel k i = none) :
    genLoop title summary sentences words tape fuel (n+1) k i = none := by
  rw [genLoop, h]

/-- C1: counter-evidence. On the article text "Asdf." — a single sentence whose
only long token is also the only distractor-pool word — the option-building
loop of the fallback generator can never reach four distinct options, so the
function never returns, whatever the random draws: the embedding yields `none`
for every fuel bound.  This contradicts the specified guarantee that the
fallback generator always terminates and returns a Quiz. -/
theorem fallback_diverges_on_singleton_pool (tape : Nat → Nat) (fuel : Nat) :
    fallback_generate_from_text "T" "" "Asdf." [] tape fuel = none := by
  have hs : sentencesOf "T" "" "Asdf." = ["Asdf"] := by decide
  have hw : wordPool ["Asdf"] = ["Asdf"] := by decide
  have hn : numQuestions ["Asdf"] = 5 := by decide
  have hca : candidatesOf ["Asdf"] 0 = ["Asdf"] := by decide
  have hcfst : ∀ k, (correctAnswer "T" ["Asdf"] tape k 0).1 = "Asdf" := by
    intro k
    have h1 : correctAnswer "T" ["Asdf"] tape k 0 =
        ((["Asdf"] : List String).getD (tape k % (["Asdf"] : List String).length) "", k + 1) := by
      simp [correctAnswer, hca]
    rw [h1]
    show (["Asdf"] : List String).getD (tape k % 1) "" = "Asdf"
    rw [Nat.mod_one]
    rfl
  have hmk : ∀ k, mkQuestion "T" "" ["Asdf"] ["Asdf"] tape fuel k 0 = none := by
    intro k
    unfold mkQuestion
    rw [hcfst k, buildOptions_stuck]
  have hgl : genLoop "T" "" ["Asdf"] ["Asdf"] tape fuel 5 0 0 = none :=
    genLoop_none_step "T" "" ["Asdf"] ["Asdf"] tape fuel 4 0 0 (hmk 0)
  simp only [fallback_generate_from_text]
  rw [hs, hw, hn, hgl]

/-- C2: whenever the fallback generator returns, every question of the returned
quiz carries exactly four pairwise-distinct options and its answer equals one
of them. -/
theorem fallback_options_wellformed (title summary clean_text : String)
    (sections : List String) (tape : Nat → Nat) (fuel : Nat) (qd : QuizDict)
    (h : fallback_generate_from_text title summary clean_text sections tape fuel = some qd) :
    ∀ q ∈ qd.quiz, q.options.length = 4 ∧ q.options.Nodup ∧ q.answer ∈ q.options := by
  obtain ⟨k2, hg, -, -, -⟩ := fallback_destruct title summary clean_text sections tape fuel qd h
  obtain ⟨-, hget⟩ := genLoop_spec title summary (sentencesOf title summary clean_text)
    (wordPool (sentencesOf title summary clean_text)) tape fuel _ 0 0 qd.quiz k2 hg
  intro q hq
  obtain ⟨⟨j, hj⟩, hgq⟩ := List.mem_iff_get.mp hq
  obtain ⟨kj, kj', hmk⟩ := hget j hj
  obtain ⟨h1, h2, h3, -, -, -, -⟩ := mkQuestion_spec _ _ _ _ _ _ _ _ _ _ hmk
  rw [hgq] at h1 h2 h3
  exact ⟨h1, h2, h3⟩

/-- C2 witness: a concrete terminating run whose questions all satisfy the
option invariants. -/
theorem fallback_options_wellformed_witness :
    ∃ qd, fallback_generate_from_text "Bar" "" "" [] (fun n => n) 8 = some qd ∧
      ∀ q ∈ qd.quiz, q.options.length = 4 ∧ q.options.Nodup ∧ q.answer ∈ q.options := by
  have hs : (fallback_generate_from_text "Bar" "" "" [] (fun n => n) 8).isSome = true := by
    decide
  obtain ⟨qd, hq⟩ := Option.isSome_iff_exists.mp hs
  exact ⟨qd, hq, fallback_options_wellformed _ _ _ _ _ _ qd hq⟩

/-- C3: whenever the fallback generator returns, the quiz length is exactly
`num_q = min 7 (max 5 (len sentences / 3))` over the sentence list split from
`clean_text` (with the summary/title fallback), a value always between 5 and
7, so the quiz is never empty. -/
theorem fallback_question_count (title summary clean_text : String)
    (sections : List String) (tape : Nat → Nat) (fuel : Nat) (qd : QuizDict)
    (h : fallback_generate_from_text title summary clean_text sections tape fuel = some qd) :
    qd.quiz.length = numQuestions (sentencesOf title summary clean_text) ∧
    5 ≤ qd.quiz.length ∧ qd.quiz.length ≤ 7 ∧ qd.quiz ≠ [] := by
  obtain ⟨k2, hg, -, -, -⟩ := fallback_destruct title summary clean_text sections tape fuel qd h
  obtain ⟨hlen, -⟩ := genLoop_spec title summary (sentencesOf title summary clean_text)
    (wordPool (sentencesOf title summary clean_text)) tape fuel _ 0 0 qd.quiz k2 hg
  have h5 : 5 ≤ numQuestions (sentencesOf title summary clean_text) :=
    le_min (by omega) (le_max_left _ _)
  have h7 : numQuestions (sentencesOf title summary clean_text) ≤ 7 := min_le_left _ _
  refine ⟨hlen, by omega, by omega, ?_⟩
  intro hnil
  rw [hnil] at hlen
  simp only [List.length_nil] at hlen
  omega

/-- C3 witness: a concrete terminating run whose single source sentence yields
the clamped minimum of five questions. -/
theorem fallback_question_count_witness :
    ∃ qd, fallback_generate_from_text "Baz" "" "" [] (fun n => n) 8 = some qd ∧
      qd.quiz.length = 5 ∧ qd.quiz ≠ [] := by
  have hs : (fallback_generate_from_text "Baz" "" "" [] (fun n => n) 8).isSome = true := by
    decide
  obtain ⟨qd, hq⟩ := Option.isSome_iff_exists.mp hs
  obtain ⟨hlen, -, -, hne⟩ := fallback_question_count _ _ _ _ _ _ qd hq
  have h5 : numQuestions (sentencesOf "Baz" "" "") = 5 := by decide
  exact ⟨qd, hq, by rw [hlen, h5], hne⟩

/-- C6: related topics of a returned fallback quiz number at most six, are
pairwise distinct, and when the sections are exactly ["History","Geography"]
those two open the list in order. -/
theorem related_topics_wellformed (title summary clean_text : String)
    (sections : List String) (tape : Nat → Nat) (fuel : Nat) (qd : QuizDict)
    (h : fallback_generate_from_text title summary clean_text sections tape fuel = some qd) :
    qd.related_topics.length ≤ 6 ∧ qd.related_topics.Nodup ∧
    (sections = ["History", "Geography"] →
      qd.related_topics.take 2 = ["History", "Geography"]) := by
  obtain ⟨k2, -, -, -, hrel⟩ := fallback_destruct title summary clean_text sections tape fuel qd h
  rw [hrel]
  refine ⟨relatedTopics_length _ _, relatedTopics_nodup _ _, ?_⟩
  rintro rfl
  unfold relatedTopics
  have hr1 : ((["History", "Geography"] : List String).take 5).foldl relStep1 [] =
      ["History", "Geography"] := by decide
  rw [hr1]
  obtain ⟨t, ht⟩ := foldl_relStep2_extends
    ((wordPool (sentencesOf title summary clean_text)).take 6) ["History", "Geography"]
  rw [ht]
  rfl

/-- C6 witness: a concrete terminating run with sections ["History","Geography"]. -/
theorem related_topics_wellformed_witness :
    ∃ qd, fallback_generate_from_text "T" "" "" ["History", "Geography"]
        (fun n => n) 8 = some qd ∧
      qd.related_topics.take 2 = ["History", "Geography"] ∧
      qd.related_topics.length ≤ 6 := by
  have hs : (fallback_generate_from_text "T" "" "" ["History", "Geography"]
      (fun n => n) 8).isSome = true := by decide
  obtain ⟨qd, hq⟩ := Option.isSome_iff_exists.mp hs
  obtain ⟨hl, -, hpre⟩ := related_topics_wellformed _ _ _ _ _ _ qd hq
  exact ⟨qd, hq, hpre rfl, hl⟩

/-- C7: on the sparse scenario (title "Foo", empty summary, text and sections)
any returned fallback quiz is non-empty, every question is exactly "Foo?" with
answer "Foo" (both derived from the title), related topics are empty, and
every other option is a synthesized `Option<n>` string with 1 ≤ n ≤ 99. -/
theorem fallback_empty_input_scenario (tape : Nat → Nat) (fuel : Nat) (qd : QuizDict)
    (h : fallback_generate_from_text "Foo" "" "" [] tape fuel = some qd) :
    qd.quiz ≠ [] ∧ qd.related_topics = [] ∧
    (∀ q ∈ qd.quiz, q.question = "Foo?" ∧ q.answer = "Foo" ∧
      ∀ x ∈ q.options, x = "Foo" ∨ ∃ m, 1 ≤ m ∧ m ≤ 99 ∧ x = "Option" ++ toString m) := by
  have hs : sentencesOf "Foo" "" "" = ["Foo"] := by decide
  have hw : wordPool ["Foo"] = [] := by decide
  have hsrc : ∀ i, srcSentence ["Foo"] i = "Foo" := by
    intro i
    unfold srcSentence
    split
    · next hlt =>
      have hi : i = 0 := by
        have h1 : i < 1 := by simpa using hlt
        omega
      subst hi
      rfl
    · rfl
  have hca : ∀ i, candidatesOf ["Foo"] i = [] := by
    intro i
    unfold candidatesOf tokensOf
    rw [hsrc i]
    decide
  have hcfoo : ∀ kj i, (correctAnswer "Foo" ["Foo"] tape kj i).1 = "Foo" := by
    intro kj i
    rw [(correctAnswer_spec "Foo" ["Foo"] tape kj i).1 (hca i), hsrc i]
    decide
  obtain ⟨k2, hg, -, -, hrel⟩ := fallback_destruct "Foo" "" "" [] tape fuel qd h
  rw [hs, hw] at hg hrel
  have hrel2 : qd.related_topics = [] := by rw [hrel]; decide
  obtain ⟨hlen, hget⟩ := genLoop_spec "Foo" "" ["Foo"] [] tape fuel _ 0 0 qd.quiz k2 hg
  have hnq : numQuestions ["Foo"] = 5 := by decide
  have hne : qd.quiz ≠ [] := by
    intro hnil
    rw [hnil] at hlen
    simp only [List.length_nil] at hlen
    omega
  refine ⟨hne, hrel2, ?_⟩
  intro q hq
  obtain ⟨⟨j, hj⟩, hgq⟩ := List.mem_iff_get.mp hq
  obtain ⟨kj, kj', hmk⟩ := hget j hj
  obtain ⟨-, -, -, hqt, -, hans, hprov⟩ := mkQuestion_spec _ _ _ _ _ _ _ _ _ _ hmk
  rw [hgq] at hqt hans hprov
  have hquestion : q.question = "Foo?" := by
    rw [hqt]
    have hqx : qTextOf "Foo" "" ["Foo"] (0 + j) = "Foo" := by
      unfold qTextOf
      rw [hsrc (0 + j)]
      decide
    rw [hqx]
    decide
  refine ⟨hquestion, by rw [hans]; exact hcfoo kj (0 + j), ?_⟩
  intro x hx
  rcases hprov x hx with h1 | h2 | h3
  · exact Or.inl (h1.trans (hcfoo kj (0 + j)))
  · exact absurd rfl h2.1
  · obtain ⟨-, m, hm, he⟩ := h3
    exact Or.inr ⟨1 + m, by omega, by omega, he⟩

/-- C7 witness: a concrete terminating run of the sparse scenario. -/
theorem fallback_empty_input_scenario_witness :
    ∃ qd, fallback_generate_from_text "Foo" "" "" [] (fun n => n) 8 = some qd ∧
      qd.quiz ≠ [] ∧ qd.related_topics = [] ∧ ∀ q ∈ qd.quiz, q.question = "Foo?" := by
  have hs : (fallback_generate_from_text "Foo" "" "" [] (fun n => n) 8).isSome = true := by
    decide
  obtain ⟨qd, hq⟩ := Option.isSome_iff_exists.mp hs
  obtain ⟨h1, h2, h3⟩ := fallback_empty_input_scenario _ _ qd hq
  exact ⟨qd, hq, h1, h2, fun q hq2 => (h3 q hq2).1⟩

/-- C8: in any returned fallback quiz, the answer of question j lies among the
title-cased long tokens of its source sentence; when no such token exists it
equals the sentence's first whitespace token, or the article title for a
token-less sentence. -/
theorem fallback_answer_selection (title summary clean_text : String)
    (sections : List String) (tape : Nat → Nat) (fuel : Nat) (qd : QuizDict)
    (h : fallback_generate_from_text title summary clean_text sections tape fuel = some qd) :
    ∀ j (hj : j < qd.quiz.length),
      (candidatesOf (sentencesOf title summary clean_text) j ≠ [] →
        (qd.quiz.get ⟨j, hj⟩).answer ∈
          candidatesOf (sentencesOf title summary clean_text) j) ∧
      (candidatesOf (sentencesOf title summary clean_text) j = [] →
        (qd.quiz.get ⟨j, hj⟩).answer =
          (pySplitWs (srcSentence (sentencesOf title summary clean_text) j)).headD title) := by
  obtain ⟨k2, hg, -, -, -⟩ := fallback_destruct title summary clean_text sections tape fuel qd h
  obtain ⟨-, hget⟩ := genLoop_spec title summary (sentencesOf title summary clean_text)
    (wordPool (sentencesOf title summary clean_text)) tape fuel _ 0 0 qd.quiz k2 hg
  intro j hj
  obtain ⟨kj, kj', hmk⟩ := hget j hj
  rw [Nat.zero_add] at hmk
  obtain ⟨-, -, -, -, -, hans, -⟩ := mkQuestion_spec _ _ _ _ _ _ _ _ _ _ hmk
  have hca := correctAnswer_spec title (sentencesOf title summary clean_text) tape kj j
  exact ⟨fun hne => by rw [hans]; exact hca.2 hne,
         fun heq => by rw [hans]; exact hca.1 heq⟩

/-- C8 witness: a fully lowercase first sentence makes the answer fall back to
its first word "the", without any failure. -/
theorem fallback_answer_selection_witness :
    ∃ qd, fallback_generate_from_text "T" "sm"
        "the quick brown fox jumps. again it runs away fast. small cats sleep deeply now."
        [] (fun n => n) 30 = some qd ∧
      ∃ hj : 0 < qd.quiz.length, (qd.quiz.get ⟨0, hj⟩).answer = "the" := by
  have hs : (fallback_generate_from_text "T" "sm"
      "the quick brown fox jumps. again it runs away fast. small cats sleep deeply now."
      [] (fun n => n) 30).isSome = true := by decide
  obtain ⟨qd, hq⟩ := Option.isSome_iff_exists.mp hs
  have hmap : (fallback_generate_from_text "T" "sm"
      "the quick brown fox jumps. again it runs away fast. small cats sleep deeply now."
      [] (fun n => n) 30).map (fun d => d.quiz.length) = some qd.quiz.length := by
    rw [hq]
    rfl
  have h5 : qd.quiz.length = 5 := by
    have hval : (fallback_generate_from_text "T" "sm"
        "the quick brown fox jumps. again it runs away fast. small cats sleep deeply now."
        [] (fun n => n) 30).map (fun d => d.quiz.length) = some 5 := by decide
    exact Option.some.inj (hmap.symm.trans hval)
  have hj : 0 < qd.quiz.length := by omega
  have hres := (fallback_answer_selection _ _ _ _ _ _ qd hq 0 hj).2 (by decide)
  have hrhs : (pySplitWs (srcSentence (sentencesOf "T" "sm"
      "the quick brown fox jumps. again it runs away fast. small cats sleep deeply now.")
      0)).headD "T" = "the" := by decide
  exact ⟨qd, hq, hj, hres.trans hrhs⟩

/-- C9: in any returned fallback quiz, question j's text is the right-trimmed
first 200 characters of its source sentence with "?" appended (with the first
200 characters of the summary, or title, substituted when the trimmed text is
shorter than 10 characters), and its explanation is exactly the string built
from the trimmed first 120 characters of the source sentence. -/
theorem fallback_question_text (title summary clean_text : String)
    (sections : List String) (tape : Nat → Nat) (fuel : Nat) (qd : QuizDict)
    (h : fallback_generate_from_text title summary clean_text sections tape fuel = some qd) :
    ∀ j (hj : j < qd.quiz.length),
      (qd.quiz.get ⟨j, hj⟩).question =
        qTextOf title summary (sentencesOf title summary clean_text) j ++ "?" ∧
      (qd.quiz.get ⟨j, hj⟩).explanation =
        "Based on the article text: \x27" ++
          pyStrip (pyTake 120 (srcSentence (sentencesOf title summary clean_text) j)) ++
          "\x27." := by
  obtain ⟨k2, hg, -, -, -⟩ := fallback_destruct title summary clean_text sections tape fuel qd h
  obtain ⟨-, hget⟩ := genLoop_spec title summary (sentencesOf title summary clean_text)
    (wordPool (sentencesOf title summary clean_text)) tape fuel _ 0 0 qd.quiz k2 hg
  intro j hj
  obtain ⟨kj, kj', hmk⟩ := hget j hj
  rw [Nat.zero_add] at hmk
  obtain ⟨-, -, -, hqt, hexp, -, -⟩ := mkQuestion_spec _ _ _ _ _ _ _ _ _ _ hmk
  exact ⟨hqt, hexp⟩

/-- C9 witness: a concrete run where the first question text and explanation
match the specified formulas. -/
theorem fallback_question_text_witness :
    ∃ qd, fallback_generate_from_text "Bar" "" "Hello World Example Sentence Here."
        [] (fun n => n) 30 = some qd ∧
      ∃ hj : 0 < qd.quiz.length,
        (qd.quiz.get ⟨0, hj⟩).question = "Hello World Example Sentence Here?" ∧
        (qd.quiz.get ⟨0, hj⟩).explanation =
          "Based on the article text: \x27Hello World Example Sentence Here\x27." := by
  have hs : (fallback_generate_from_text "Bar" "" "Hello World Example Sentence Here."
      [] (fun n => n) 30).isSome = true := by decide
  obtain ⟨qd, hq⟩ := Option.isSome_iff_exists.mp hs
  have hmap : (fallback_generate_from_text "Bar" "" "Hello World Example Sentence Here."
      [] (fun n => n) 30).map (fun d => d.quiz.length) = some qd.quiz.length := by
    rw [hq]
    rfl
  have h5 : qd.quiz.length = 5 := by
    have hval : (fallback_generate_from_text "Bar" "" "Hello World Example Sentence Here."
        [] (fun n => n) 30).map (fun d => d.quiz.length) = some 5 := by decide
    exact Option.some.inj (hmap.symm.trans hval)
  have hj : 0 < qd.quiz.length := by omega
  obtain ⟨hqt, hexp⟩ := fallback_question_text _ _ _ _ _ _ qd hq 0 hj
  have hq0 : qTextOf "Bar" "" (sentencesOf "Bar" "" "Hello World Example Sentence Here.") 0 ++
      "?" = "Hello World Example Sentence Here?" := by decide
  have he0 : ("Based on the article text: \x27" ++
      pyStrip (pyTake 120 (srcSentence
        (sentencesOf "Bar" "" "Hello World Example Sentence Here.") 0)) ++ "\x27.") =
      "Based on the article text: \x27Hello World Example Sentence Here\x27." := by decide
  exact ⟨qd, hq, hj, hqt.trans hq0, hexp.trans he0⟩

/-!  Helper lemmas for the JSON validator. -/

/-- C10: `is_wikipedia_url` is a total boolean function that accepts a URL
exactly when the parsed network location contains "wikipedia.org" anywhere as
a substring; hence look-alike hosts such as "wikipedia.org.example.com" and
"fakewikipedia.org" are accepted, while the substring occurring only in the
path is not enough. -/
theorem is_wikipedia_url_substring_netloc :
    (∀ url, is_wikipedia_url url = true ↔
      ∃ n, urlparseNetloc url = some n ∧
        containsSub "wikipedia.org".toList n.toList = true) ∧
    is_wikipedia_url "https://en.wikipedia.org/wiki/Lean" = true ∧
    is_wikipedia_url "http://wikipedia.org.example.com/wiki/A" = true ∧
    is_wikipedia_url "https://fakewikipedia.org/x" = true ∧
    is_wikipedia_url "https://example.com/wikipedia.org" = false := by
  refine ⟨?_, by decide, by decide, by decide, by decide⟩
  intro url
  unfold is_wikipedia_url
  cases hn : urlparseNetloc url with
  | none => simp
  | some n =>
    constructor
    · intro h
      exact ⟨n, rfl, h⟩
    · rintro ⟨n', hn', h⟩
      cases Option.some.inj hn'
      exact h

/-- C10 witness: the characterization applied to a concrete accepted URL. -/
theorem is_wikipedia_url_substring_netloc_witness :
    is_wikipedia_url "https://wikipedia.org" = true :=
  (is_wikipedia_url_substring_netloc.1 "https://wikipedia.org").mpr
    ⟨"wikipedia.org", by decide, by decide⟩
